import Mathlib

/-!
Verification of the consensus core of rsnano-node: the election state
machine, vote acceptance and tally logic (nano/node/election.cpp) and the
block processor ingest pipeline (nano::block_processor).  Each definition
is a shallow embedding of the corresponding C++ function; machine integers
(uint64, uint128, uint256) are modelled as Nat, steady-clock instants as
Int, and block hashes / accounts as Nat (lexicographic comparison of
uint256 values coincides with numeric comparison).
-/

namespace RsNano

/-- Election states, mirroring nano::election::state_t. -/
inductive state_t
  | passive
  | active
  | confirmed
  | expired_unconfirmed
  | expired_confirmed
deriving DecidableEq, Fintype, Repr

/-- Transition legality table of nano::election::valid_change
(election.cpp lines 72-115): the switch returns true exactly for the
listed (expected, desired) pairs. -/
def valid_change (expected desired : state_t) : Bool :=
  match expected with
  | .passive =>
    match desired with
    | .active | .confirmed | .expired_unconfirmed => true
    | _ => false
  | .active =>
    match desired with
    | .confirmed | .expired_unconfirmed => true
    | _ => false
  | .confirmed =>
    match desired with
    | .expired_confirmed => true
    | _ => false
  | .expired_unconfirmed | .expired_confirmed => false

/-- Mutable part of the election touched by state_change: the atomic
state discriminant state_m and the state_start clock. -/
structure election_fsm where
  state_m : state_t
  state_start : Int
deriving DecidableEq, Repr

/-- nano::election::state_change (election.cpp lines 117-129): result
starts as true; when the change is legal and the atomic
compare_exchange_strong succeeds (current state equals expected), the
state becomes desired, state_start is reset to the current steady clock,
and result is false.  Returns (result, new fsm state). -/
def state_change (s : election_fsm) (expected desired : state_t) (now : Int) :
    Bool × election_fsm :=
  if valid_change expected desired then
    if s.state_m = expected then (false, ⟨desired, now⟩)
    else (true, s)
  else (true, s)

/-- Per-voter last-vote record nano::vote_info: steady-clock receive time,
vote timestamp (uint64) and voted block hash. -/
structure vote_info where
  time : Int
  timestamp : Nat
  hash : Nat
deriving DecidableEq, Repr

/-- Origin of a vote, nano::election::vote_source: received live from the
network or replayed from the inactive vote cache. -/
inductive vote_source
  | live
  | cache
deriving DecidableEq, Repr

/-- nano::election_vote_result: the (replay, processed) pair returned by
nano::election::vote. -/
structure election_vote_result where
  replay : Bool
  processed : Bool
deriving DecidableEq, Repr

/-- Context read by nano::election::vote and cooldown_time: whether this
is a dev/test network, node.minimum_principal_weight, the trended online
stake node.online_reps.trended, and the ledger weight oracle
node.ledger.weight. -/
structure VoteCtx where
  is_dev_network : Bool
  minimum_principal_weight : Nat
  online_stake : Nat
  weight : Nat → Nat

/-- Maximum uint64 value, the final-vote timestamp sentinel. -/
def U64MAX : Nat := 2 ^ 64 - 1

/-- nano::election::cooldown_time (election.cpp lines 264-277): 1 second
for representatives whose weight exceeds a twentieth of trended online
stake (more than 5%), 5 seconds above a hundredth (more than 1%),
otherwise 15 seconds.  Divisions are C++ integer divisions. -/
def cooldown_time (ctx : VoteCtx) (weight : Nat) : Nat :=
  if ctx.online_stake / 20 < weight then 1
  else if ctx.online_stake / 100 < weight then 5
  else 15

/-- Local max_vote flag of nano::election::vote (election.cpp line 426):
the incoming timestamp is the final-vote sentinel and strictly exceeds the
stored one. -/
def is_max_vote (timestamp_a stored : Nat) : Bool :=
  decide (timestamp_a = U64MAX) && decide (stored < timestamp_a)

/-- Local past_cooldown flag of nano::election::vote (election.cpp lines
428-434): true unless the vote is live, in which case the stored receive
time must be at least the voter's cooldown old. -/
def is_past_cooldown (ctx : VoteCtx) (w : Nat) (vtime now : Int) (src : vote_source) : Bool :=
  match src with
  | .live => decide (vtime ≤ now - (cooldown_time ctx w : Int))
  | .cache => true

/-- Overwrite of the voter's last_votes entry (election.cpp line 441). -/
def vote_record_insert (last_votes : Nat → Option vote_info) (rep : Nat)
    (vi : vote_info) : Nat → Option vote_info :=
  fun a => if a = rep then some vi else last_votes a

/-- Body of nano::election::vote for a voter with an existing last-vote
entry (election.cpp lines 414-440 plus the accepting overwrite): the
replay guards (strictly older timestamp, or equal timestamp with a hash
that does not exceed the stored hash), then the cooldown check (live
votes only, bypassed by a superseding final vote), then acceptance. -/
def vote_existing (ctx : VoteCtx) (last_votes : Nat → Option vote_info) (now : Int)
    (rep : Nat) (timestamp_a : Nat) (block_hash_a : Nat) (src : vote_source)
    (last_vote_l : vote_info) :
    election_vote_result × (Nat → Option vote_info) :=
  if last_vote_l.timestamp > timestamp_a then (⟨true, false⟩, last_votes)
  else if last_vote_l.timestamp = timestamp_a ∧ ¬ last_vote_l.hash < block_hash_a then
    (⟨true, false⟩, last_votes)
  else if !is_max_vote timestamp_a last_vote_l.timestamp
      && !is_past_cooldown ctx (ctx.weight rep) last_vote_l.time now src then
    (⟨false, false⟩, last_votes)
  else
    (⟨false, true⟩, vote_record_insert last_votes rep ⟨now, timestamp_a, block_hash_a⟩)

/-- nano::election::vote (election.cpp lines 404-454), acting on the
last_votes record (account → vote_info).  Order of checks as in the
source: the principal-weight gate (skipped on dev networks), then the
existing-entry guards of vote_existing, and finally the overwrite of the
voter's entry with the accepted vote.  This function is the guard stage:
the confirm_if_quorum call run on acceptance (election.cpp lines
449-451), whose remove_votes purge can erase last_votes entries, is
composed on top of it in vote_full below. -/
def vote (ctx : VoteCtx) (last_votes : Nat → Option vote_info) (now : Int)
    (rep : Nat) (timestamp_a : Nat) (block_hash_a : Nat) (src : vote_source) :
    election_vote_result × (Nat → Option vote_info) :=
  if ctx.is_dev_network = false ∧ ctx.weight rep ≤ ctx.minimum_principal_weight then
    (⟨false, false⟩, last_votes)
  else
    match last_votes rep with
    | some last_vote_l =>
      vote_existing ctx last_votes now rep timestamp_a block_hash_a src last_vote_l
    | none =>
      (⟨false, true⟩, vote_record_insert last_votes rep ⟨now, timestamp_a, block_hash_a⟩)

/-- Arguments of one call to nano::election::vote. -/
structure vote_call where
  now : Int
  rep : Nat
  timestamp : Nat
  hash : Nat
  src : vote_source

/-- Concrete context for the C2 counterexample: non-dev network, minimum
principal weight 10, a ledger in which every account has weight 0. -/
def c2_ctx : VoteCtx := ⟨false, 10, 1000, fun _ => 0⟩

/-- Concrete last-vote record for the C2 counterexample: voter 1 has a
stored entry with timestamp 5 and hash 7. -/
def c2_lv : Nat → Option vote_info := fun a => if a = 1 then some ⟨0, 5, 7⟩ else none

/-- Concrete context for the C4 witness: non-dev network, minimum
principal weight 10, trended online stake 2000, every account holding
weight 500 (above a twentieth of stake, so cooldown 1 second). -/
def c4_ctx : VoteCtx := ⟨false, 10, 2000, fun _ => 500⟩

/-- Concrete last-vote record for the C4 witness: voter 1 voted at
steady-clock time 50 with timestamp 5 for hash 3. -/
def c4_lv : Nat → Option vote_info := fun a => if a = 1 then some ⟨50, 5, 3⟩ else none

/-- Accumulated ledger weight voting for hash h: the block_weights
accumulation of nano::election::tally_impl (election.cpp lines 300-308),
with last_votes as an association list account → vote_info (an
unordered_map has one entry per voter). -/
def block_weight (weight : Nat → Nat) (last_votes : List (Nat × vote_info)) (h : Nat) : Nat :=
  ((last_votes.filter (fun p => decide (p.2.hash = h))).map (fun p => weight p.1)).sum

/-- Distinct hashes voted for in last_votes: the key set of the
block_weights map of tally_impl. -/
def vote_hashes (last_votes : List (Nat × vote_info)) : List Nat :=
  (last_votes.map (fun p => p.2.hash)).dedup

/-- Insertion into a weight-descending multimap.  nano::tally_t is a
std::multimap keyed by uint128 weight with std::greater: a new entry is
placed after all existing entries of greater or equal weight. -/
def tally_insert (e : Nat × Nat) : List (Nat × Nat) → List (Nat × Nat)
  | [] => [e]
  | x :: xs => if x.1 < e.1 then e :: x :: xs else x :: tally_insert e xs

/-- nano::election::tally_impl (election.cpp lines 296-330): sum each
voter's current ledger weight into its voted hash's bucket, then emit
(weight, hash) entries ordered descending by weight, keeping only hashes
still present in the candidate set last_blocks (blocks are identified by
their hash). -/
def tally_impl (weight : Nat → Nat) (last_votes : List (Nat × vote_info))
    (last_blocks : List Nat) : List (Nat × Nat) :=
  ((vote_hashes last_votes).filter (fun h => decide (h ∈ last_blocks))).foldl
    (fun acc h => tally_insert (block_weight weight last_votes h, h) acc) []

/-- nano::election::have_quorum (election.cpp lines 279-288) over a tally
ordered descending by weight: top is the first weight, second the next
weight (0 if absent), and the result is top - second ≥ delta.  The none
result models the release_assert top ≥ second firing and the undefined
begin() dereference on an empty tally. -/
def have_quorum (delta : Nat) : List (Nat × Nat) → Option Bool
  | [] => none
  | (top, _) :: rest =>
    let second := (rest.head?.map Prod.fst).getD 0
    if second ≤ top then some (decide (delta ≤ top - second)) else none

/-- Weight-descending ordering of a tally list. -/
def tally_descending (l : List (Nat × Nat)) : Prop :=
  List.Pairwise (fun a b => b.1 ≤ a.1) l

instance (l : List (Nat × Nat)) : Decidable (tally_descending l) := by
  unfold tally_descending
  infer_instance

/-- Core election fields for the winner/candidate invariant: the status
winner's hash, the candidate set last_blocks (blocks keyed by hash) and
the last_votes record as an association list. -/
structure election_state where
  winner : Nat
  last_blocks : List Nat
  last_votes : List (Nat × vote_info)
deriving Repr

/-- Election constructor (election.cpp lines 21-37): the initial block is
the status winner and the sole candidate, and last_votes holds the
null-account entry voting for it with timestamp 0. -/
def election_init (now : Int) (block_hash : Nat) : election_state :=
  ⟨block_hash, [block_hash], [(0, ⟨now, 0, block_hash⟩)]⟩

/-- Winner update of nano::election::confirm_if_quorum (election.cpp
lines 332-372): recompute the tally; when the total observed weight over
all candidates reaches delta and the best-weight block differs from the
recorded status winner, promote the new winner and purge the superseded
winner's generated votes (remove_votes erases the accounts listed in the
node's local vote history for the old winner, an external input modelled
by the history parameter).  The force re-commit and final-vote broadcast
are external side effects. -/
def confirm_if_quorum_step (weight : Nat → Nat) (delta : Nat)
    (history : List Nat) (e : election_state) : election_state :=
  match tally_impl weight e.last_votes e.last_blocks with
  | [] => e
  | (w0, h0) :: rest =>
    if delta ≤ w0 + (rest.map Prod.fst).sum ∧ h0 ≠ e.winner then
      { e with winner := h0,
               last_votes := e.last_votes.filter (fun p => decide (p.1 ∉ history)) }
    else e

/-- nano::election::remove_block (election.cpp lines 565-587): refuses to
remove the hash of the current status winner; otherwise, if the hash is
tracked, drops the candidate and every last-vote entry voting for it.
replace_by_weight evicts its chosen victim through this function. -/
def remove_block (e : election_state) (h : Nat) : election_state :=
  if e.winner ≠ h ∧ h ∈ e.last_blocks then
    { e with last_blocks := e.last_blocks.erase h,
             last_votes := e.last_votes.filter (fun p => decide (p.2.hash ≠ h)) }
  else e

/-- Lookup of a voter's entry in the last_votes association list
(unordered_map find, election.cpp line 413). -/
def lv_lookup (l : List (Nat × vote_info)) (a : Nat) : Option vote_info :=
  (l.find? (fun p => decide (p.1 = a))).map Prod.snd

/-- Assignment last_votes[rep] = x on the association list (unordered_map
operator[], election.cpp line 441): replace the existing entry in place,
or append a fresh one. -/
def lv_set (l : List (Nat × vote_info)) (rep : Nat) (x : vote_info) :
    List (Nat × vote_info) :=
  if l.any (fun p => decide (p.1 = rep)) then
    l.map (fun p => if p.1 = rep then (rep, x) else p)
  else l ++ [(rep, x)]

/-- Key uniqueness of the last_votes association list: the invariant of
the underlying unordered_map (one entry per voter). -/
def keys_nodup (l : List (Nat × vote_info)) : Prop :=
  (l.map Prod.fst).Nodup

instance (l : List (Nat × vote_info)) : Decidable (keys_nodup l) := by
  unfold keys_nodup
  infer_instance

/-- Complete nano::election::vote call on the election state (election.cpp
lines 404-454): the guard stage decides (replay, processed) from the
voter's current entry; on acceptance the voter's entry is overwritten
(last_votes[rep] = {now, timestamp, hash}, line 441) and, unless the
winner is already confirmed (node.block_confirmed, line 449),
confirm_if_quorum runs (line 451), which on a winner change purges the
superseded winner's generated votes from last_votes via remove_votes
(election.cpp lines 549-563); on rejection the state is untouched. -/
def vote_full (ctx : VoteCtx) (delta : Nat) (history : List Nat) (confirmed : Bool)
    (e : election_state) (now : Int) (rep ts h : Nat) (src : vote_source) :
    election_vote_result × election_state :=
  let r := vote ctx (lv_lookup e.last_votes) now rep ts h src
  if r.1.processed = true then
    let e1 : election_state := { e with last_votes := lv_set e.last_votes rep ⟨now, ts, h⟩ }
    (r.1, if confirmed then e1 else confirm_if_quorum_step ctx.weight delta history e1)
  else (r.1, e)

/-- Final election state after a sequence of full vote calls. -/
def vote_full_seq (ctx : VoteCtx) (delta : Nat) (history : List Nat) (confirmed : Bool)
    (e : election_state) : List vote_call → election_state
  | [] => e
  | c :: cs => vote_full_seq ctx delta history confirmed
      (vote_full ctx delta history confirmed e c.now c.rep c.timestamp c.hash c.src).2 cs

/-- All states visited by a sequence of full vote calls, the initial one
included. -/
def vote_full_states (ctx : VoteCtx) (delta : Nat) (history : List Nat) (confirmed : Bool)
    (e : election_state) : List vote_call → List election_state
  | [] => [e]
  | c :: cs => e :: vote_full_states ctx delta history confirmed
      (vote_full ctx delta history confirmed e c.now c.rep c.timestamp c.hash c.src).2 cs

/-- Context for the purge half of the C2 counterexample: dev network (no
weight gate), trended stake 1000, account a holding weight 10·a. -/
def c2b_ctx : VoteCtx := ⟨true, 10, 1000, fun a => 10 * a⟩

/-- Initial election for the purge half of the C2 counterexample: winner
hash 1, candidates 1 and 2, voter 10 on record with timestamp 5 for
hash 1. -/
def c2b_e0 : election_state := ⟨1, [1, 2], [(10, ⟨0, 5, 1⟩)]⟩

/-- Static configuration of the Block Processor consulted by add: the
capacity flags.block_processor_full_size, the block-type test of add_impl
(state and open blocks go through signature verification), and the
proof-of-work check network_params.work.validate_entry (true means
error). -/
structure bp_config where
  full_size : Nat
  is_state_or_open : Nat → Bool
  validate_entry : Nat → Bool

/-- Queues and counters of nano::block_processor: the general blocks
queue, the state_block_signature_verification queue, the forced queue,
and the overfill / insufficient_work stat counters. -/
structure bp_state where
  blocks : List Nat
  verification : List Nat
  forced : List Nat
  overfill : Nat
  insufficient_work : Nat
deriving DecidableEq, Repr

/-- nano::block_processor::size (part_001 lines 135-139): blocks plus
verification plus forced queue lengths. -/
def bp_size (s : bp_state) : Nat :=
  s.blocks.length + s.verification.length + s.forced.length

/-- nano::block_processor::full (part_001 lines 141-144): total pending
count at or above the configured full size. -/
def bp_full (c : bp_config) (s : bp_state) : Bool :=
  decide (c.full_size ≤ bp_size s)

/-- nano::block_processor::add_impl (part_001 lines 309-323): state and
open blocks enter the signature-verification queue, everything else the
general blocks queue. -/
def add_impl (c : bp_config) (s : bp_state) (b : Nat) : bp_state :=
  if c.is_state_or_open b then { s with verification := s.verification ++ [b] }
  else { s with blocks := s.blocks ++ [b] }

/-- nano::block_processor::add (part_001 lines 157-171): silently reject
with the overfill counter when full, reject with the insufficient_work
counter when the work check fails, otherwise enqueue via add_impl. -/
def bp_add (c : bp_config) (s : bp_state) (b : Nat) : bp_state :=
  if bp_full c s then { s with overfill := s.overfill + 1 }
  else if c.validate_entry b then { s with insufficient_work := s.insufficient_work + 1 }
  else add_impl c s b

/-- Ledger commit result codes nano::process_result returned per block. -/
inductive process_result
  | progress
  | gap_previous
  | gap_source
  | gap_epoch_open_pending
  | old
  | bad_signature
  | negative_spend
  | unreceivable
  | fork
  | opened_burn_account
  | balance_mismatch
  | representative_mismatch
  | block_position
  | insufficient_work
deriving DecidableEq, Fintype, Repr

/-- Block types distinguished by process_one (nano::block_type; the
legacy open type is named open_block here because open is reserved). -/
inductive block_type
  | send
  | receive
  | open_block
  | change
  | state
deriving DecidableEq, Repr

/-- Fields of a block consulted by process_one for unchecked
bookkeeping: hash, previous link, account, source (the ledger's
block_source lookup), destination and link, the block type, and the
sideband details of state blocks (send subtype flag and whether the
block's epoch is below epoch::max). -/
structure block_info where
  hash : Nat
  previous : Nat
  account : Nat
  source : Nat
  destination : Nat
  link : Nat
  btype : block_type
  is_send_detail : Bool
  epoch_lt_max : Bool
deriving DecidableEq, Repr

/-- Condition of process_one (part_001 line 399) guarding the
destination-keyed trigger on progress: legacy send blocks, or state
send-subtype blocks whose epoch is below the last epoch. -/
def send_dest_check (b : block_info) : Bool :=
  decide (b.btype = .send) ||
    (decide (b.btype = .state) && b.is_send_detail && b.epoch_lt_max)

/-- Unchecked-table side effects of nano::block_processor::process_one
(part_001 lines 380-524) per ledger commit result: the first component
lists the (dependency key, block hash) pairs stored via unchecked.put,
the second the dependency hashes passed to queue_unchecked
(unchecked.trigger plus gap-cache eviction). -/
def process_one_effects (b : block_info) (code : process_result) :
    List (Nat × Nat) × List Nat :=
  match code with
  | .progress =>
    ([], [b.hash] ++ (if send_dest_check b then
      [if b.destination = 0 then b.link else b.destination] else []))
  | .gap_previous => ([(b.previous, b.hash)], [])
  | .gap_source => ([(b.source, b.hash)], [])
  | .gap_epoch_open_pending => ([(b.account, b.hash)], [])
  | _ => ([], [])

/-- List of the six legal transition pairs, for the statement of C3. -/
def legal_pairs (e d : state_t) : Prop :=
  (e = .passive ∧ d = .active) ∨
  (e = .passive ∧ d = .confirmed) ∨
  (e = .passive ∧ d = .expired_unconfirmed) ∨
  (e = .active ∧ d = .confirmed) ∨
  (e = .active ∧ d = .expired_unconfirmed) ∨
  (e = .confirmed ∧ d = .expired_confirmed)

instance (e d : state_t) : Decidable (legal_pairs e d) := by
  unfold legal_pairs
  infer_instance

/-- C3: a state change is legal for exactly the six pairs
passive→active, passive→confirmed, passive→expired_unconfirmed,
active→confirmed, active→expired_unconfirmed, confirmed→expired_confirmed;
every other pair is rejected, and from the terminal states
expired_unconfirmed and expired_confirmed no state_change ever alters the
state. -/
theorem C3_transition_table :
    (∀ e d : state_t, valid_change e d = true ↔ legal_pairs e d) ∧
    (∀ (s : election_fsm) (e d : state_t) (now : Int),
      (s.state_m = .expired_unconfirmed ∨ s.state_m = .expired_confirmed) →
      (state_change s e d now).2.state_m = s.state_m) := by
  constructor
  · decide
  · intro s e d now hterm
    unfold state_change
    split
    · split
      · rename_i hv he
        exfalso
        rcases hterm with h | h <;> rw [he] at h <;> subst h <;>
          cases d <;> simp [valid_change] at hv
      · rfl
    · rfl

/-- Witness for C3 at a concrete instance: active→confirmed is legal and a
state_change from the terminal state expired_confirmed leaves the state
unchanged. -/
theorem C3_transition_table_witness :
    (valid_change .active .confirmed = true ↔ legal_pairs .active .confirmed) ∧
    (state_change ⟨.expired_confirmed, 0⟩ .expired_confirmed .passive 5).2.state_m
      = state_t.expired_confirmed :=
  ⟨C3_transition_table.1 .active .confirmed,
   C3_transition_table.2 ⟨.expired_confirmed, 0⟩ .expired_confirmed .passive 5 (Or.inr rfl)⟩

/-- C8: state_change returns false exactly when the transition is legal
per valid_change and the current state equals expected; on success the
state becomes desired with the clock reset to now; in every other case it
returns true and the state is unchanged. -/
theorem C8_state_change_spec (s : election_fsm) (e d : state_t) (now : Int) :
    ((state_change s e d now).1 = false ↔ (valid_change e d = true ∧ s.state_m = e)) ∧
    ((valid_change e d = true ∧ s.state_m = e) →
      (state_change s e d now).2 = ⟨d, now⟩) ∧
    ((state_change s e d now).1 = true → (state_change s e d now).2 = s) := by
  unfold state_change
  split
  · split
    · rename_i hv he
      refine ⟨by simp [hv, he], fun _ => rfl, by simp⟩
    · rename_i hv he
      refine ⟨by simp [he], fun hc => absurd hc.2 he, fun _ => rfl⟩
  · rename_i hv
    exact ⟨by simp [hv], fun hc => absurd hc.1 hv, fun _ => rfl⟩

/-- Witness for C8: a passive→active change with matching current state
succeeds and resets the clock. -/
theorem C8_state_change_spec_witness :
    (state_change ⟨.passive, 0⟩ .passive .active 7).1 = false ∧
    (state_change ⟨.passive, 0⟩ .passive .active 7).2 = ⟨.active, 7⟩ :=
  ⟨((C8_state_change_spec ⟨.passive, 0⟩ .passive .active 7).1).2 ⟨rfl, rfl⟩,
   (C8_state_change_spec ⟨.passive, 0⟩ .passive .active 7).2.1 ⟨rfl, rfl⟩⟩

/-- Reduction of vote when the principal-weight gate rejects. -/
theorem vote_gate_eq (ctx : VoteCtx) (lv : Nat → Option vote_info) (now : Int)
    (rep ts h : Nat) (src : vote_source)
    (hgate : ctx.is_dev_network = false ∧ ctx.weight rep ≤ ctx.minimum_principal_weight) :
    vote ctx lv now rep ts h src = (⟨false, false⟩, lv) := by
  unfold vote
  rw [if_pos hgate]

/-- Reduction of vote past the gate when the voter has an entry. -/
theorem vote_some_eq (ctx : VoteCtx) (lv : Nat → Option vote_info) (now : Int)
    (rep ts h : Nat) (src : vote_source) (lvl : vote_info)
    (hgate : ¬(ctx.is_dev_network = false ∧ ctx.weight rep ≤ ctx.minimum_principal_weight))
    (hm : lv rep = some lvl) :
    vote ctx lv now rep ts h src = vote_existing ctx lv now rep ts h src lvl := by
  unfold vote
  rw [if_neg hgate, hm]

/-- Reduction of vote past the gate when the voter has no entry. -/
theorem vote_none_eq (ctx : VoteCtx) (lv : Nat → Option vote_info) (now : Int)
    (rep ts h : Nat) (src : vote_source)
    (hgate : ¬(ctx.is_dev_network = false ∧ ctx.weight rep ≤ ctx.minimum_principal_weight))
    (hm : lv rep = none) :
    vote ctx lv now rep ts h src
      = (⟨false, true⟩, vote_record_insert lv rep ⟨now, ts, h⟩) := by
  unfold vote
  rw [if_neg hgate, hm]

/-- Passing the principal-weight gate (dev network, or weight strictly
above the minimum) falsifies the rejection condition of the gate. -/
theorem gate_passes {ctx : VoteCtx} {rep : Nat}
    (hw : ctx.is_dev_network = true ∨ ctx.minimum_principal_weight < ctx.weight rep) :
    ¬(ctx.is_dev_network = false ∧ ctx.weight rep ≤ ctx.minimum_principal_weight) := by
  rcases hw with hdev | hmin
  · intro hc; rw [hdev] at hc; cases hc.1
  · intro hc; exact absurd hc.2 (not_le.mpr hmin)

/-- An accepted vote from a voter with an existing entry carries a
timestamp at least the stored one (the replay guard admits only larger
timestamps or an equal timestamp with a larger hash). -/
theorem vote_processed_ts_le (ctx : VoteCtx) (lv : Nat → Option vote_info) (now : Int)
    (rep ts h : Nat) (src : vote_source) (vi : vote_info)
    (hrep : lv rep = some vi)
    (hp : (vote ctx lv now rep ts h src).1.processed = true) :
    vi.timestamp ≤ ts := by
  by_cases hgate : ctx.is_dev_network = false ∧ ctx.weight rep ≤ ctx.minimum_principal_weight
  · rw [vote_gate_eq ctx lv now rep ts h src hgate] at hp
    cases hp
  · by_cases h1 : vi.timestamp > ts
    · rw [vote_some_eq ctx lv now rep ts h src vi hgate hrep] at hp
      unfold vote_existing at hp
      rw [if_pos h1] at hp
      cases hp
    · omega

/-- A successful lv_lookup comes from a list member with that key. -/
theorem lv_lookup_mem (l : List (Nat × vote_info)) (a : Nat) (v : vote_info)
    (hl : lv_lookup l a = some v) : (a, v) ∈ l := by
  unfold lv_lookup at hl
  rcases hf : l.find? (fun p => decide (p.1 = a)) with _ | p
  · rw [hf] at hl; cases hl
  · rw [hf] at hl
    have hm := List.mem_of_find?_eq_some hf
    have hpr := List.find?_some hf
    have h1 : p.1 = a := by simpa using hpr
    have h2 : p.2 = v := by simpa using hl
    have hpe : p = (a, v) := by
      rcases p with ⟨p1, p2⟩
      simp_all
    rw [hpe] at hm
    exact hm

/-- With unique keys, membership determines the lv_lookup result. -/
theorem lv_lookup_of_mem (l : List (Nat × vote_info)) (a : Nat) (v : vote_info)
    (hn : keys_nodup l) (hm : (a, v) ∈ l) : lv_lookup l a = some v := by
  induction l with
  | nil => cases hm
  | cons p rest ih =>
    unfold keys_nodup at hn
    rw [List.map_cons, List.nodup_cons] at hn
    rcases List.mem_cons.mp hm with he | hm2
    · rw [← he]
      unfold lv_lookup
      rw [List.find?_cons_of_pos _ (by simp)]
      rfl
    · have hka : ¬ p.1 = a := by
        intro hk
        apply hn.1
        rw [hk]
        exact List.mem_map_of_mem Prod.fst hm2
      have hrest := ih hn.2 hm2
      unfold lv_lookup at hrest ⊢
      rw [List.find?_cons_of_neg _ (by simp [hka])]
      exact hrest

/-- Every member of lv_set l rep x is the new entry (rep, x) or an
untouched member of l with a different key. -/
theorem mem_lv_set (l : List (Nat × vote_info)) (rep : Nat) (x : vote_info)
    (q : Nat × vote_info) (hq : q ∈ lv_set l rep x) :
    q = (rep, x) ∨ (q ∈ l ∧ q.1 ≠ rep) := by
  unfold lv_set at hq
  split at hq
  · rcases List.mem_map.mp hq with ⟨p, hp, he⟩
    by_cases hk : p.1 = rep
    · left
      rw [← he, if_pos hk]
    · right
      rw [← he, if_neg hk]
      exact ⟨hp, hk⟩
  · rename_i hany
    rcases List.mem_append.mp hq with hp | hp
    · right
      refine ⟨hp, fun hk => ?_⟩
      exact hany (List.any_eq_true.mpr ⟨q, hp, by simp [hk]⟩)
    · left
      simpa using hp

/-- The in-place replacement branch of lv_set leaves the key list
unchanged. -/
theorem keys_map_lv_set (l : List (Nat × vote_info)) (rep : Nat) (x : vote_info) :
    ((l.map (fun p => if p.1 = rep then (rep, x) else p)).map Prod.fst)
      = l.map Prod.fst := by
  induction l with
  | nil => rfl
  | cons p rest ih =>
    simp only [List.map_cons, ih]
    by_cases hk : p.1 = rep
    · rw [if_pos hk, hk]
    · rw [if_neg hk]

/-- lv_set preserves key uniqueness. -/
theorem keys_nodup_lv_set (l : List (Nat × vote_info)) (rep : Nat) (x : vote_info)
    (hn : keys_nodup l) : keys_nodup (lv_set l rep x) := by
  unfold lv_set
  split
  · unfold keys_nodup at hn ⊢
    rw [keys_map_lv_set]
    exact hn
  · rename_i hany
    unfold keys_nodup at hn ⊢
    rw [List.map_append, List.nodup_append]
    refine ⟨hn, by simp, ?_⟩
    intro k hk1 hk2
    simp only [List.map_cons, List.map_nil, List.mem_singleton] at hk2
    subst hk2
    rcases List.mem_map.mp hk1 with ⟨p, hp, he⟩
    exact hany (List.any_eq_true.mpr ⟨p, hp, by simp [he]⟩)

/-- Filtering preserves key uniqueness. -/
theorem keys_nodup_of_filter (l : List (Nat × vote_info)) (q : Nat × vote_info → Bool)
    (hn : keys_nodup l) : keys_nodup (l.filter q) := by
  unfold keys_nodup at hn ⊢
  exact List.Nodup.sublist (List.Sublist.map Prod.fst (List.filter_sublist l)) hn

/-- confirm_if_quorum_step leaves last_votes unchanged or filters out the
history accounts. -/
theorem confirm_step_last_votes (weight : Nat → Nat) (delta : Nat) (history : List Nat)
    (e : election_state) :
    (confirm_if_quorum_step weight delta history e).last_votes = e.last_votes ∨
    (confirm_if_quorum_step weight delta history e).last_votes
      = e.last_votes.filter (fun p => decide (p.1 ∉ history)) := by
  rcases hm : tally_impl weight e.last_votes e.last_blocks with _ | ⟨⟨w0, h0⟩, rest⟩
  · left
    simp [confirm_if_quorum_step, hm]
  · simp only [confirm_if_quorum_step, hm]
    split
    · right; rfl
    · left; rfl

/-- Reduction of vote_full when the guard stage rejects. -/
theorem vote_full_not_processed (ctx : VoteCtx) (delta : Nat) (history : List Nat)
    (confirmed : Bool) (e : election_state) (now : Int) (rep ts h : Nat)
    (src : vote_source)
    (hp : (vote ctx (lv_lookup e.last_votes) now rep ts h src).1.processed = false) :
    vote_full ctx delta history confirmed e now rep ts h src
      = ((vote ctx (lv_lookup e.last_votes) now rep ts h src).1, e) := by
  simp only [vote_full]
  rw [if_neg (by simp [hp])]

/-- Reduction of vote_full when the guard stage accepts. -/
theorem vote_full_processed (ctx : VoteCtx) (delta : Nat) (history : List Nat)
    (confirmed : Bool) (e : election_state) (now : Int) (rep ts h : Nat)
    (src : vote_source)
    (hp : (vote ctx (lv_lookup e.last_votes) now rep ts h src).1.processed = true) :
    vote_full ctx delta history confirmed e now rep ts h src
      = ((vote ctx (lv_lookup e.last_votes) now rep ts h src).1,
         if confirmed then
           ({ e with last_votes := lv_set e.last_votes rep ⟨now, ts, h⟩ } : election_state)
         else confirm_if_quorum_step ctx.weight delta history
           { e with last_votes := lv_set e.last_votes rep ⟨now, ts, h⟩ }) := by
  simp only [vote_full]
  rw [if_pos hp]

/-- After an accepted vote_full call, the last_votes record is the
overwritten record or its remove_votes filtering. -/
theorem vote_full_lv_shape (ctx : VoteCtx) (delta : Nat) (history : List Nat)
    (confirmed : Bool) (e : election_state) (now : Int) (rep ts h : Nat)
    (src : vote_source)
    (hp : (vote ctx (lv_lookup e.last_votes) now rep ts h src).1.processed = true) :
    (vote_full ctx delta history confirmed e now rep ts h src).2.last_votes
      = lv_set e.last_votes rep ⟨now, ts, h⟩ ∨
    (vote_full ctx delta history confirmed e now rep ts h src).2.last_votes
      = (lv_set e.last_votes rep ⟨now, ts, h⟩).filter
          (fun p => decide (p.1 ∉ history)) := by
  rw [vote_full_processed ctx delta history confirmed e now rep ts h src hp]
  dsimp only
  split
  · exact Or.inl rfl
  · exact confirm_step_last_votes ctx.weight delta history _

/-- vote_full preserves key uniqueness of the last_votes record. -/
theorem keys_nodup_vote_full (ctx : VoteCtx) (delta : Nat) (history : List Nat)
    (confirmed : Bool) (e : election_state) (now : Int) (rep ts h : Nat)
    (src : vote_source) (hn : keys_nodup e.last_votes) :
    keys_nodup (vote_full ctx delta history confirmed e now rep ts h src).2.last_votes := by
  by_cases hp : (vote ctx (lv_lookup e.last_votes) now rep ts h src).1.processed = true
  · rcases vote_full_lv_shape ctx delta history confirmed e now rep ts h src hp with hs | hs
    · rw [hs]
      exact keys_nodup_lv_set _ _ _ hn
    · rw [hs]
      exact keys_nodup_of_filter _ _ (keys_nodup_lv_set _ _ _ hn)
  · rw [vote_full_not_processed ctx delta history confirmed e now rep ts h src
      (by simpa using hp)]
    exact hn

/-- The seed state is among the states visited by a call sequence. -/
theorem vote_full_states_self (ctx : VoteCtx) (delta : Nat) (history : List Nat)
    (confirmed : Bool) (e : election_state) (calls : List vote_call) :
    e ∈ vote_full_states ctx delta history confirmed e calls := by
  cases calls <;> exact List.mem_cons_self _ _

/-- One full vote call never decreases the timestamp of an entry that it
leaves present (it may erase entries via the remove_votes purge, but
never writes a smaller timestamp). -/
theorem vote_full_step_mono (ctx : VoteCtx) (delta : Nat) (history : List Nat)
    (confirmed : Bool) (e : election_state) (now : Int) (rep ts h : Nat)
    (src : vote_source) (a : Nat) (vi vi' : vote_info)
    (hn : keys_nodup e.last_votes)
    (hb : lv_lookup e.last_votes a = some vi)
    (ha : lv_lookup (vote_full ctx delta history confirmed e now rep ts h src).2.last_votes a
      = some vi') :
    vi.timestamp ≤ vi'.timestamp := by
  by_cases hp : (vote ctx (lv_lookup e.last_votes) now rep ts h src).1.processed = true
  · have hmem : (a, vi') ∈ lv_set e.last_votes rep ⟨now, ts, h⟩ := by
      rcases vote_full_lv_shape ctx delta history confirmed e now rep ts h src hp with hs | hs
      · exact lv_lookup_mem _ _ _ (hs ▸ ha)
      · have hmf := lv_lookup_mem _ _ _ (hs ▸ ha)
        exact (List.mem_filter.mp hmf).1
    rcases mem_lv_set _ _ _ _ hmem with he | ⟨hmem2, hne⟩
    · injection he with ha2 hv2
      rw [ha2] at hb
      have hts := vote_processed_ts_le ctx (lv_lookup e.last_votes) now rep ts h src vi hb hp
      rw [hv2]
      exact hts
    · have hl := lv_lookup_of_mem e.last_votes a vi' hn hmem2
      rw [hb] at hl
      injection hl with hv
      exact le_of_eq (congrArg vote_info.timestamp hv)
  · rw [vote_full_not_processed ctx delta history confirmed e now rep ts h src
      (by simpa using hp)] at ha
    dsimp only at ha
    rw [hb] at ha
    injection ha with hv
    exact le_of_eq (congrArg vote_info.timestamp hv)

/-- Over any sequence of full vote calls in which the voter's entry stays
present at every visited state, the stored timestamp never decreases. -/
theorem vote_full_seq_mono (ctx : VoteCtx) (delta : Nat) (history : List Nat)
    (confirmed : Bool) :
    ∀ (calls : List vote_call) (e : election_state) (a : Nat) (vi vif : vote_info),
      keys_nodup e.last_votes →
      (∀ s ∈ vote_full_states ctx delta history confirmed e calls,
        (lv_lookup s.last_votes a).isSome) →
      lv_lookup e.last_votes a = some vi →
      lv_lookup (vote_full_seq ctx delta history confirmed e calls).last_votes a = some vif →
      vi.timestamp ≤ vif.timestamp := by
  intro calls
  induction calls with
  | nil =>
    intro e a vi vif hn hall hb hf
    have he : vote_full_seq ctx delta history confirmed e [] = e := rfl
    rw [he, hb] at hf
    injection hf with hv
    exact le_of_eq (congrArg vote_info.timestamp hv)
  | cons c cs ih =>
    intro e a vi vif hn hall hb hf
    have h1some : (lv_lookup
        (vote_full ctx delta history confirmed e c.now c.rep c.timestamp c.hash c.src).2.last_votes
        a).isSome := by
      refine hall _ ?_
      exact List.mem_cons_of_mem _ (vote_full_states_self ctx delta history confirmed _ cs)
    obtain ⟨vi1, hvi1⟩ := Option.isSome_iff_exists.mp h1some
    have step := vote_full_step_mono ctx delta history confirmed e c.now c.rep c.timestamp
      c.hash c.src a vi vi1 hn hb hvi1
    have hn1 := keys_nodup_vote_full ctx delta history confirmed e c.now c.rep c.timestamp
      c.hash c.src hn
    have hall1 : ∀ s ∈ vote_full_states ctx delta history confirmed
        (vote_full ctx delta history confirmed e c.now c.rep c.timestamp c.hash c.src).2 cs,
        (lv_lookup s.last_votes a).isSome := by
      intro s hs
      exact hall s (List.mem_cons_of_mem _ hs)
    have rest := ih _ a vi1 vif hn1 hall1 hvi1 hf
    exact step.trans rest

/-- C2 (amended): for every voter that passes the principal-weight gate
(dev network, or ledger weight strictly above the minimum principal
weight) and has an existing last-vote entry, a full vote call with a
strictly smaller timestamp, or an equal timestamp and a hash that does
not lexicographically exceed the stored hash, is rejected with
replay = true and processed = false and leaves the whole election state
unchanged; and the per-voter last-vote timestamp is monotonically
non-decreasing over any sequence of full vote calls throughout which the
voter's entry remains present (an accepted vote can purge other voters'
entries via confirm_if_quorum's remove_votes, after which a purged voter
re-enters fresh). -/
theorem C2_vote_replay_monotonic (ctx : VoteCtx) (delta : Nat) (history : List Nat)
    (confirmed : Bool) :
    (∀ (e : election_state) (now : Int) (rep ts h : Nat) (src : vote_source)
      (vi : vote_info),
      lv_lookup e.last_votes rep = some vi →
      (ctx.is_dev_network = true ∨ ctx.minimum_principal_weight < ctx.weight rep) →
      (ts < vi.timestamp ∨ (vi.timestamp = ts ∧ ¬ vi.hash < h)) →
      (vote_full ctx delta history confirmed e now rep ts h src).1 = ⟨true, false⟩ ∧
      (vote_full ctx delta history confirmed e now rep ts h src).2 = e) ∧
    (∀ (e : election_state) (calls : List vote_call) (a : Nat) (vi vif : vote_info),
      keys_nodup e.last_votes →
      (∀ s ∈ vote_full_states ctx delta history confirmed e calls,
        (lv_lookup s.last_votes a).isSome) →
      lv_lookup e.last_votes a = some vi →
      lv_lookup (vote_full_seq ctx delta history confirmed e calls).last_votes a = some vif →
      vi.timestamp ≤ vif.timestamp) := by
  constructor
  · intro e now rep ts h src vi hrep hw hrej
    have hr : (vote ctx (lv_lookup e.last_votes) now rep ts h src).1 = ⟨true, false⟩ := by
      rw [vote_some_eq ctx (lv_lookup e.last_votes) now rep ts h src vi
        (gate_passes hw) hrep]
      unfold vote_existing
      rcases hrej with hlt | ⟨heq, hge⟩
      · rw [if_pos hlt]
      · rw [if_neg (by omega), if_pos ⟨heq, hge⟩]
    have hfull := vote_full_not_processed ctx delta history confirmed e now rep ts h src
      (by rw [hr])
    rw [hfull, hr]
    exact ⟨rfl, rfl⟩
  · exact fun e calls => vote_full_seq_mono ctx delta history confirmed calls e

/-- C2 counterexample, two independent refutations of the claim as
stated.  Weight gate: on the non-dev context c2_ctx voter 1 holds weight
0, at or below the minimum 10, and has a stored entry with timestamp 5;
a live vote with strictly smaller timestamp 3 returns (replay = false,
processed = false), not replay = true, because the gate rejects before
the replay check.  Monotonicity: in c2b_e0 voter 10 is on record with
timestamp 5; an accepted vote from voter 20 changes the winner and
confirm_if_quorum's remove_votes purges voter 10 (history [10]), after
which voter 10's vote with the strictly smaller timestamp 3 is accepted
fresh — the per-voter last-vote timestamp decreases from 5 to 3 over the
two-call sequence. -/
theorem C2_vote_replay_counterexample :
    (c2_lv 1 = some ⟨0, 5, 7⟩ ∧ (3 : Nat) < 5 ∧
      (vote c2_ctx c2_lv 100 1 3 7 .live).1 = ⟨false, false⟩) ∧
    (lv_lookup c2b_e0.last_votes 10 = some ⟨0, 5, 1⟩ ∧ (3 : Nat) < 5 ∧
      (vote_full c2b_ctx 250 [10] false
          (vote_full c2b_ctx 250 [10] false c2b_e0 50 20 1 2 .live).2
          60 10 3 2 .live).1 = ⟨false, true⟩ ∧
      lv_lookup (vote_full c2b_ctx 250 [10] false
          (vote_full c2b_ctx 250 [10] false c2b_e0 50 20 1 2 .live).2
          60 10 3 2 .live).2.last_votes 10
        = some ⟨60, 3, 2⟩) := by
  refine ⟨⟨rfl, by omega, by rfl⟩, ⟨rfl, by omega, by decide, by decide⟩⟩

/-- C5: on a non-dev network a vote from a representative whose ledger
weight is at or below the minimum principal weight is rejected with
replay = false and processed = false, leaving the vote records unchanged;
on dev networks the minimum-weight rejection does not apply (a vote from
a fresh voter is processed regardless of weight). -/
theorem C5_minimum_weight_gate (ctx : VoteCtx) (lv : Nat → Option vote_info)
    (now : Int) (rep ts h : Nat) (src : vote_source) :
    (ctx.is_dev_network = false → ctx.weight rep ≤ ctx.minimum_principal_weight →
      (vote ctx lv now rep ts h src).1 = ⟨false, false⟩ ∧
      (vote ctx lv now rep ts h src).2 = lv) ∧
    (ctx.is_dev_network = true → lv rep = none →
      (vote ctx lv now rep ts h src).1 = ⟨false, true⟩) := by
  constructor
  · intro hdev hle
    rw [vote_gate_eq ctx lv now rep ts h src ⟨hdev, hle⟩]
    exact ⟨rfl, rfl⟩
  · intro hdev hnone
    rw [vote_none_eq ctx lv now rep ts h src (by simp [hdev]) hnone]

/-- Witness for C5: with weight 0 and minimum 10 on a non-dev network the
vote is dropped with (false, false); the same voter on a dev network is
processed. -/
theorem C5_minimum_weight_gate_witness :
    (vote c2_ctx c2_lv 100 1 3 7 .live).1 = ⟨false, false⟩ ∧
    (vote ⟨true, 10, 1000, fun _ => 0⟩ (fun _ => none) 100 1 3 7 .live).1 = ⟨false, true⟩ :=
  ⟨((C5_minimum_weight_gate c2_ctx c2_lv 100 1 3 7 .live).1 rfl (by norm_num [c2_ctx])).1,
   (C5_minimum_weight_gate ⟨true, 10, 1000, fun _ => 0⟩ (fun _ => none) 100 1 3 7 .live).2
     rfl rfl⟩

/-- C4: for a voter with an existing last-vote entry,
(a) a live vote that is not a superseding final vote and arrives before
the voter's cooldown has elapsed is not processed;
(b) a final vote (maximum timestamp sentinel) superseding a non-final
stored vote is processed regardless of cooldown, provided the voter passes
the principal-weight gate;
(c) a cached vote passing the replay guards is processed regardless of
any cooldown (cached votes are never subject to cooldown);
(d) the cooldown is 1 second for voters above a twentieth (5%) of trended
online stake, 5 seconds above a hundredth (1%), and 15 seconds otherwise. -/
theorem C4_cooldown (ctx : VoteCtx) (lv : Nat → Option vote_info) (now : Int)
    (rep ts h : Nat) (vi : vote_info) (hrep : lv rep = some vi) :
    (¬(ts = U64MAX ∧ vi.timestamp < ts) →
      ¬(vi.time ≤ now - (cooldown_time ctx (ctx.weight rep) : Int)) →
      (vote ctx lv now rep ts h .live).1.processed = false) ∧
    (ts = U64MAX → vi.timestamp < U64MAX →
      (ctx.is_dev_network = true ∨ ctx.minimum_principal_weight < ctx.weight rep) →
      (vote ctx lv now rep ts h .live).1.processed = true) ∧
    ((vi.timestamp < ts ∨ (vi.timestamp = ts ∧ vi.hash < h)) →
      (ctx.is_dev_network = true ∨ ctx.minimum_principal_weight < ctx.weight rep) →
      (vote ctx lv now rep ts h .cache).1.processed = true) ∧
    (∀ w : Nat,
      (ctx.online_stake / 20 < w → cooldown_time ctx w = 1) ∧
      (¬ ctx.online_stake / 20 < w → ctx.online_stake / 100 < w → cooldown_time ctx w = 5) ∧
      (¬ ctx.online_stake / 20 < w → ¬ ctx.online_stake / 100 < w →
        cooldown_time ctx w = 15)) := by
  refine ⟨?_, ?_, ?_, ?_⟩
  · intro hmax hcd
    have hmv : is_max_vote ts vi.timestamp = false := by
      rcases Decidable.em (ts = U64MAX) with he | he
      · have hnl : ¬ vi.timestamp < ts := fun hl => hmax ⟨he, hl⟩
        simp [is_max_vote, hnl]
      · simp [is_max_vote, he]
    have hpc : is_past_cooldown ctx (ctx.weight rep) vi.time now .live = false := by
      simp [is_past_cooldown, hcd]
    by_cases hgate : ctx.is_dev_network = false ∧ ctx.weight rep ≤ ctx.minimum_principal_weight
    · rw [vote_gate_eq ctx lv now rep ts h .live hgate]
    · rw [vote_some_eq ctx lv now rep ts h .live vi hgate hrep]
      unfold vote_existing
      split
      · rfl
      · split
        · rfl
        · rw [if_pos (by rw [hmv, hpc]; rfl)]
  · intro hts hlt hw
    subst hts
    have hmv : is_max_vote U64MAX vi.timestamp = true := by
      simp [is_max_vote, hlt]
    rw [vote_some_eq ctx lv now rep U64MAX h .live vi (gate_passes hw) hrep]
    unfold vote_existing
    rw [if_neg (by omega), if_neg (fun hc => absurd hc.1 (Nat.ne_of_lt hlt)),
      if_neg (by simp [hmv])]
  · intro hrej hw
    rw [vote_some_eq ctx lv now rep ts h .cache vi (gate_passes hw) hrep]
    unfold vote_existing
    rw [if_neg (by rcases hrej with h1 | ⟨h1, _⟩ <;> omega)]
    rw [if_neg ?_, if_neg (by simp [is_past_cooldown])]
    rintro ⟨he, hn⟩
    rcases hrej with h1 | ⟨h1, h2⟩
    · omega
    · exact hn h2
  · intro w
    refine ⟨fun h1 => ?_, fun h1 h2 => ?_, fun h1 h2 => ?_⟩
    · unfold cooldown_time
      rw [if_pos h1]
    · unfold cooldown_time
      rw [if_neg h1, if_pos h2]
    · unfold cooldown_time
      rw [if_neg h1, if_neg h2]

/-- Witness for C4 at the concrete context c4_ctx (voter 1, weight 500
above 5% of stake 2000, cooldown 1 second, stored vote at time 50 with
timestamp 5): a live revote at time 50 with timestamp 6 is rejected, a
final-sentinel revote is accepted, the same cached revote is accepted, and
the computed cooldown is 1. -/
theorem C4_cooldown_witness :
    (vote c4_ctx c4_lv 50 1 6 4 .live).1.processed = false ∧
    (vote c4_ctx c4_lv 50 1 U64MAX 4 .live).1.processed = true ∧
    (vote c4_ctx c4_lv 50 1 6 4 .cache).1.processed = true ∧
    cooldown_time c4_ctx 500 = 1 :=
  ⟨(C4_cooldown c4_ctx c4_lv 50 1 6 4 ⟨50, 5, 3⟩ rfl).1
      (by intro hc; exact absurd hc.1 (by decide)) (by decide),
   (C4_cooldown c4_ctx c4_lv 50 1 U64MAX 4 ⟨50, 5, 3⟩ rfl).2.1 rfl (by decide)
      (Or.inr (by decide)),
   (C4_cooldown c4_ctx c4_lv 50 1 6 4 ⟨50, 5, 3⟩ rfl).2.2.1 (Or.inl (by decide))
      (Or.inr (by decide)),
   ((C4_cooldown c4_ctx c4_lv 50 1 6 4 ⟨50, 5, 3⟩ rfl).2.2.2 500).1 (by decide)⟩

/-- Witness for C2 (amended): voter 1 (weight 500, above the minimum 10
on the non-dev context c4_ctx) has a stored entry with timestamp 5; a
live vote with smaller timestamp 3 is rejected as replay with the
election state untouched, and across one accepted call (timestamp 9)
during which the entry stays present the stored timestamp grows from 5
to 9. -/
theorem C2_vote_replay_witness :
    (vote_full c4_ctx 100 [] true ⟨3, [3, 7], [(1, ⟨50, 5, 3⟩)]⟩ 100 1 3 7 .live).1
      = ⟨true, false⟩ ∧
    (vote_full c4_ctx 100 [] true ⟨3, [3, 7], [(1, ⟨50, 5, 3⟩)]⟩ 100 1 3 7 .live).2
      = ⟨3, [3, 7], [(1, ⟨50, 5, 3⟩)]⟩ ∧
    (⟨50, 5, 3⟩ : vote_info).timestamp ≤ (⟨60, 9, 4⟩ : vote_info).timestamp :=
  ⟨((C2_vote_replay_monotonic c4_ctx 100 [] true).1 ⟨3, [3, 7], [(1, ⟨50, 5, 3⟩)]⟩
      100 1 3 7 .live ⟨50, 5, 3⟩ rfl (Or.inr (by decide)) (Or.inl (by decide))).1,
   ((C2_vote_replay_monotonic c4_ctx 100 [] true).1 ⟨3, [3, 7], [(1, ⟨50, 5, 3⟩)]⟩
      100 1 3 7 .live ⟨50, 5, 3⟩ rfl (Or.inr (by decide)) (Or.inl (by decide))).2,
   (C2_vote_replay_monotonic c4_ctx 100 [] true).2 ⟨3, [3, 7], [(1, ⟨50, 5, 3⟩)]⟩
      [⟨60, 1, 9, 4, .live⟩] 1 ⟨50, 5, 3⟩ ⟨60, 9, 4⟩ (by decide) (by decide) rfl
      (by decide)⟩

/-- Every member of tally_insert e l is e or a member of l. -/
theorem mem_tally_insert (e x : Nat × Nat) (l : List (Nat × Nat)) :
    x ∈ tally_insert e l ↔ x = e ∨ x ∈ l := by
  induction l with
  | nil => simp [tally_insert]
  | cons y ys ih =>
    unfold tally_insert
    split
    · simp [or_comm, or_assoc, or_left_comm]
    · simp [ih]
      tauto

/-- tally_insert preserves the weight-descending ordering. -/
theorem tally_insert_sorted (e : Nat × Nat) (l : List (Nat × Nat))
    (hl : tally_descending l) : tally_descending (tally_insert e l) := by
  induction l with
  | nil => simp [tally_insert, tally_descending]
  | cons x xs ih =>
    rcases List.pairwise_cons.mp hl with ⟨hx, hxs⟩
    unfold tally_insert
    split
    · rename_i hlt
      refine List.pairwise_cons.mpr ⟨?_, hl⟩
      intro b hb
      rcases List.mem_cons.mp hb with hb | hb
      · subst hb; exact le_of_lt hlt
      · exact (hx b hb).trans (le_of_lt hlt)
    · rename_i hge
      push_neg at hge
      refine List.pairwise_cons.mpr ⟨?_, ih hxs⟩
      intro b hb
      rcases (mem_tally_insert e b xs).mp hb with hb | hb
      · subst hb; exact hge
      · exact hx b hb

/-- The tally fold keeps the accumulator weight-descending. -/
theorem tally_foldl_sorted (f : Nat → Nat × Nat) (hs : List Nat) :
    ∀ acc : List (Nat × Nat), tally_descending acc →
      tally_descending (hs.foldl (fun acc h => tally_insert (f h) acc) acc) := by
  induction hs with
  | nil => exact fun acc hacc => hacc
  | cons h hs ih =>
    intro acc hacc
    exact ih _ (tally_insert_sorted (f h) acc hacc)

/-- Every member of the tally fold is in the accumulator or the image of
the folded list. -/
theorem mem_tally_foldl (f : Nat → Nat × Nat) (hs : List Nat) :
    ∀ (acc : List (Nat × Nat)) (x : Nat × Nat),
      x ∈ hs.foldl (fun acc h => tally_insert (f h) acc) acc →
      x ∈ acc ∨ ∃ h ∈ hs, x = f h := by
  induction hs with
  | nil => exact fun acc x hx => Or.inl hx
  | cons h hs ih =>
    intro acc x hx
    rcases ih _ x hx with hx | ⟨h1, hm, he⟩
    · rcases (mem_tally_insert (f h) x acc).mp hx with he | hx
      · exact Or.inr ⟨h, List.mem_cons_self _ _, he⟩
      · exact Or.inl hx
    · exact Or.inr ⟨h1, List.mem_cons_of_mem _ hm, he⟩

/-- The output of tally_impl is ordered descending by weight. -/
theorem tally_impl_sorted (weight : Nat → Nat) (lvs : List (Nat × vote_info))
    (blks : List Nat) : tally_descending (tally_impl weight lvs blks) := by
  unfold tally_impl
  exact tally_foldl_sorted _ _ [] (List.Pairwise.nil)

/-- Every entry of tally_impl carries a hash from the candidate set. -/
theorem tally_impl_mem (weight : Nat → Nat) (lvs : List (Nat × vote_info))
    (blks : List Nat) (x : Nat × Nat) (hx : x ∈ tally_impl weight lvs blks) :
    x.2 ∈ blks := by
  unfold tally_impl at hx
  rcases mem_tally_foldl _ _ [] x hx with hx | ⟨h, hm, he⟩
  · cases hx
  · subst he
    have := List.of_mem_filter hm
    simpa using this

/-- C1: for every non-empty tally ordered descending by weight,
have_quorum returns exactly the truth of top - second ≥ delta, where top
is the first weight and second the next weight (0 when there is no second
entry); no assertion fires. -/
theorem C1_have_quorum_margin (delta top hsh : Nat) (rest : List (Nat × Nat))
    (hsort : tally_descending ((top, hsh) :: rest)) :
    have_quorum delta ((top, hsh) :: rest)
      = some (decide (delta ≤ top - ((rest.head?.map Prod.fst).getD 0))) := by
  have hsec : ((rest.head?.map Prod.fst).getD 0) ≤ top := by
    rcases rest with _ | ⟨⟨s, h2⟩, rs⟩
    · simp
    · have := (List.pairwise_cons.mp hsort).1 (s, h2) (List.mem_cons_self _ _)
      simpa using this
  simp only [have_quorum]
  rw [if_pos hsec]

/-- Witness for C1: with delta = 100 the tally [(150, _), (40, _)] has
quorum (150 - 40 ≥ 100) and the tally [(150, _), (60, _)] does not. -/
theorem C1_have_quorum_margin_witness :
    have_quorum 100 [(150, 1), (40, 2)] = some true ∧
    have_quorum 100 [(150, 1), (60, 2)] = some false :=
  ⟨(C1_have_quorum_margin 100 150 1 [(40, 2)] (by decide)).trans rfl,
   (C1_have_quorum_margin 100 150 1 [(60, 2)] (by decide)).trans rfl⟩

/-- C10: the tally produced by tally_impl is ordered descending, so its
first entry's weight is at least its second entry's weight, the
release_assert in have_quorum holds and the subtraction top - second never
underflows (have_quorum never returns none on a tally_impl output); on an
empty tally have_quorum has no defined result (non-emptiness is a
precondition). -/
theorem C10_tally_sorted_no_underflow (weight : Nat → Nat)
    (lvs : List (Nat × vote_info)) (blks : List Nat) (delta : Nat) :
    (∀ (e1 e2 : Nat × Nat) (rest : List (Nat × Nat)),
      tally_impl weight lvs blks = e1 :: e2 :: rest → e2.1 ≤ e1.1) ∧
    (tally_impl weight lvs blks ≠ [] →
      have_quorum delta (tally_impl weight lvs blks) ≠ none) ∧
    have_quorum delta [] = none := by
  refine ⟨?_, ?_, rfl⟩
  · intro e1 e2 rest heq
    have hs := tally_impl_sorted weight lvs blks
    rw [heq] at hs
    exact (List.pairwise_cons.mp hs).1 e2 (List.mem_cons_self _ _)
  · intro hne
    have hs := tally_impl_sorted weight lvs blks
    rcases hmm : tally_impl weight lvs blks with _ | ⟨⟨top, hsh⟩, rest⟩
    · exact absurd hmm hne
    · rw [hmm] at hs
      have hsec : ((rest.head?.map Prod.fst).getD 0) ≤ top := by
        rcases rest with _ | ⟨⟨s, h2⟩, rs⟩
        · simp
        · have := (List.pairwise_cons.mp hs).1 (s, h2) (List.mem_cons_self _ _)
          simpa using this
      simp only [have_quorum]
      rw [if_pos hsec]
      simp

/-- Witness for C10 at a concrete election: two voters of weights 100 and
200 voting for candidate hashes 7 and 8, both tracked; the computed tally
is [(200, 8), (100, 7)], its top weight dominates, and have_quorum is
defined on it. -/
theorem C10_tally_sorted_no_underflow_witness :
    (100 : Nat) ≤ 200 ∧
    have_quorum 100 (tally_impl (fun a => 100 * a)
      [(1, ⟨0, 5, 7⟩), (2, ⟨0, 5, 8⟩)] [7, 8]) ≠ none :=
  ⟨(C10_tally_sorted_no_underflow (fun a => 100 * a)
      [(1, ⟨0, 5, 7⟩), (2, ⟨0, 5, 8⟩)] [7, 8] 100).1 (200, 8) (100, 7) [] (by decide),
   (C10_tally_sorted_no_underflow (fun a => 100 * a)
      [(1, ⟨0, 5, 7⟩), (2, ⟨0, 5, 8⟩)] [7, 8] 100).2.1 (by decide)⟩

/-- C9: the status winner's hash is always a tracked candidate: the
constructor establishes winner ∈ last_blocks, the confirm_if_quorum
winner update preserves it (the promoted winner is drawn from tally
entries, which only carry hashes of last_blocks), and remove_block
preserves it (it refuses to remove the winner's hash). -/
theorem C9_winner_tracked (weight : Nat → Nat) (delta : Nat) (history : List Nat)
    (now : Int) (bh : Nat) :
    ((election_init now bh).winner ∈ (election_init now bh).last_blocks) ∧
    (∀ e : election_state, e.winner ∈ e.last_blocks →
      (confirm_if_quorum_step weight delta history e).winner
        ∈ (confirm_if_quorum_step weight delta history e).last_blocks) ∧
    (∀ (e : election_state) (h : Nat), e.winner ∈ e.last_blocks →
      (remove_block e h).winner ∈ (remove_block e h).last_blocks) := by
  refine ⟨by simp [election_init], ?_, ?_⟩
  · intro e he
    rcases hm : tally_impl weight e.last_votes e.last_blocks with _ | ⟨⟨w0, h0⟩, rest⟩
    · simpa [confirm_if_quorum_step, hm] using he
    · simp only [confirm_if_quorum_step, hm]
      split
      · have : ((w0, h0) : Nat × Nat) ∈ tally_impl weight e.last_votes e.last_blocks := by
          rw [hm]; exact List.mem_cons_self _ _
        exact tally_impl_mem weight e.last_votes e.last_blocks (w0, h0) this
      · exact he
  · intro e h he
    unfold remove_block
    split
    · rename_i hc
      exact (List.mem_erase_of_ne hc.1).mpr he
    · exact he

/-- Witness for C9: promoting tally winner 8 over recorded winner 7 keeps
the winner tracked, and removing candidate 7 while 8 is the winner keeps
8 tracked. -/
theorem C9_winner_tracked_witness :
    (confirm_if_quorum_step (fun _ => 200) 100 [] ⟨7, [7, 8], [(1, ⟨0, 5, 8⟩)]⟩).winner
      ∈ (confirm_if_quorum_step (fun _ => 200) 100 []
        ⟨7, [7, 8], [(1, ⟨0, 5, 8⟩)]⟩).last_blocks ∧
    (remove_block ⟨8, [7, 8], [(1, ⟨0, 5, 8⟩)]⟩ 7).winner
      ∈ (remove_block ⟨8, [7, 8], [(1, ⟨0, 5, 8⟩)]⟩ 7).last_blocks :=
  ⟨(C9_winner_tracked (fun _ => 200) 100 [] 0 0).2.1
      ⟨7, [7, 8], [(1, ⟨0, 5, 8⟩)]⟩ (by decide),
   (C9_winner_tracked (fun _ => 200) 100 [] 0 0).2.2
      ⟨8, [7, 8], [(1, ⟨0, 5, 8⟩)]⟩ 7 (by decide)⟩

/-- C6: add on a full processor (total pending count at or above the
configured capacity, equality included) increments the overfill counter
and enqueues nothing; below capacity a failing work check increments the
insufficient_work counter and enqueues nothing; otherwise the block is
enqueued (into the verification queue or the general blocks queue) and
the total pending count grows by exactly one with no counter change. -/
theorem C6_add_backpressure (c : bp_config) (s : bp_state) (b : Nat) :
    (c.full_size ≤ bp_size s →
      bp_add c s b = { s with overfill := s.overfill + 1 }) ∧
    (¬ c.full_size ≤ bp_size s → c.validate_entry b = true →
      bp_add c s b = { s with insufficient_work := s.insufficient_work + 1 }) ∧
    (¬ c.full_size ≤ bp_size s → c.validate_entry b = false →
      (b ∈ (bp_add c s b).verification ∨ b ∈ (bp_add c s b).blocks) ∧
      bp_size (bp_add c s b) = bp_size s + 1 ∧
      (bp_add c s b).overfill = s.overfill ∧
      (bp_add c s b).insufficient_work = s.insufficient_work) := by
  refine ⟨?_, ?_, ?_⟩
  · intro hfull
    unfold bp_add bp_full
    rw [if_pos (by simpa using hfull)]
  · intro hnf hw
    unfold bp_add bp_full
    rw [if_neg (by simpa using hnf), if_pos hw]
  · intro hnf hw
    unfold bp_add bp_full
    rw [if_neg (by simpa using hnf), if_neg (by simp [hw])]
    unfold add_impl
    split
    · refine ⟨Or.inl (by simp), ?_, rfl, rfl⟩
      simp [bp_size]
      omega
    · refine ⟨Or.inr (by simp), ?_, rfl, rfl⟩
      simp [bp_size]
      omega

/-- Witness for C6: a processor with capacity 2 holding 2 pending blocks
rejects with an overfill increment; an empty processor rejects block 99
(failing work) with an insufficient_work increment, and enqueues block 4
growing the pending count to 1. -/
theorem C6_add_backpressure_witness :
    bp_add ⟨2, fun b => b % 2 == 0, fun b => b == 99⟩ ⟨[1, 2], [], [], 0, 0⟩ 4
      = ⟨[1, 2], [], [], 1, 0⟩ ∧
    bp_add ⟨2, fun b => b % 2 == 0, fun b => b == 99⟩ ⟨[], [], [], 0, 0⟩ 99
      = ⟨[], [], [], 0, 1⟩ ∧
    bp_size (bp_add ⟨2, fun b => b % 2 == 0, fun b => b == 99⟩ ⟨[], [], [], 0, 0⟩ 4)
      = 1 :=
  ⟨(C6_add_backpressure ⟨2, fun b => b % 2 == 0, fun b => b == 99⟩
      ⟨[1, 2], [], [], 0, 0⟩ 4).1 (by decide),
   (C6_add_backpressure ⟨2, fun b => b % 2 == 0, fun b => b == 99⟩
      ⟨[], [], [], 0, 0⟩ 99).2.1 (by decide) (by decide),
   ((C6_add_backpressure ⟨2, fun b => b % 2 == 0, fun b => b == 99⟩
      ⟨[], [], [], 0, 0⟩ 4).2.2 (by decide) (by decide)).2.1⟩

/-- C7: the unchecked-table key chosen by process_one per gap result —
the block's previous hash for gap_previous, the block's source for
gap_source, the block's account for gap_epoch_open_pending — and every
non-gap result (progress, old and all validation rejections) stores
nothing in the unchecked table. -/
theorem C7_gap_unchecked (b : block_info) :
    ((process_one_effects b .gap_previous).1 = [(b.previous, b.hash)]) ∧
    ((process_one_effects b .gap_source).1 = [(b.source, b.hash)]) ∧
    ((process_one_effects b .gap_epoch_open_pending).1 = [(b.account, b.hash)]) ∧
    (∀ code : process_result,
      code ≠ .gap_previous → code ≠ .gap_source → code ≠ .gap_epoch_open_pending →
      (process_one_effects b code).1 = []) := by
  refine ⟨rfl, rfl, rfl, ?_⟩
  intro code h1 h2 h3
  cases code <;>
    first
    | rfl
    | exact absurd rfl h1
    | exact absurd rfl h2
    | exact absurd rfl h3

/-- Witness for C7: for a concrete block, gap_previous stores the block
under its previous hash and bad_signature stores nothing. -/
theorem C7_gap_unchecked_witness :
    (process_one_effects ⟨1, 2, 3, 4, 5, 6, .send, false, false⟩ .gap_previous).1
      = [(2, 1)] ∧
    (process_one_effects ⟨1, 2, 3, 4, 5, 6, .send, false, false⟩ .bad_signature).1
      = [] :=
  ⟨(C7_gap_unchecked ⟨1, 2, 3, 4, 5, 6, .send, false, false⟩).1,
   (C7_gap_unchecked ⟨1, 2, 3, 4, 5, 6, .send, false, false⟩).2.2.2 .bad_signature
      (by decide) (by decide) (by decide)⟩

end RsNano
